import Mathlib

/-!
Verification of the fastNLP checkpoint callback (CheckpointCallback in
fastNLP/core/callbacks/checkpoint_callback.py) and of the Jittor dataloader
adapter (JittorDataLoader in fastNLP/core/dataloaders/jittor_dataloader/fdl.py).

Metric values (Python floats) are modelled as rationals; Python dicts with
insertion order are modelled as association lists.
-/

namespace FastNLP

/-- Decision taken by one call of the top-K retention step in
CheckpointCallback._save_topk: the spec calls these Admit, AdmitAndEvict and
Reject. -/
inductive Decision (α : Type) where
  | admitted : Decision α
  | evicted (k : α) : Decision α
  | rejected : Decision α
deriving DecidableEq, Repr

/-- State used by CheckpointCallback._save_topk: the insertion-ordered dict
self._topk_model (folder name, metric value) and the counter self._topn. -/
structure TopkState (α : Type) where
  topk_model : List (α × ℚ)
  topn : ℕ
deriving DecidableEq, Repr

/-- Initial retention state set up in CheckpointCallback.__init__:
self._topk_model = empty dict, self._topn = 0. -/
def initTopk (α : Type) : TopkState α := ⟨[], 0⟩

/-- Python dict assignment d[k] = v on an insertion-ordered dict: updates the
value in place if the key is present, otherwise appends the pair at the end. -/
def dictInsert {α β : Type} [DecidableEq α] : List (α × β) → α → β → List (α × β)
  | [], k, v => [(k, v)]
  | p :: l, k, v => if p.1 = k then (k, v) :: l else p :: dictInsert l k v

/-- Python dict d.pop(k): removes the first (with unique keys: the only) pair
whose key is k. -/
def dictRemove {α : Type} [DecidableEq α] : List (α × ℚ) → α → List (α × ℚ)
  | [], _ => []
  | p :: l, k => if p.1 = k then l else p :: dictRemove l k

/-- One comparison step of Python min(..., key=...): the earlier entry p is
replaced by the best later entry q only when q is strictly smaller, so on ties
the earliest entry wins. -/
def pickMin {α : Type} (p : α × ℚ) : Option (α × ℚ) → α × ℚ
  | none => p
  | some q => if q.2 < p.2 then q else p

/-- Python min(d, key=lambda x: d[x]): first entry (in insertion order)
holding the minimal value. -/
def firstMinBy {α : Type} : List (α × ℚ) → Option (α × ℚ)
  | [] => none
  | p :: l => some (pickMin p (firstMinBy l))

/-- One comparison step of Python max(..., key=...): the earlier entry p is
replaced by the best later entry q only when q is strictly larger. -/
def pickMax {α : Type} (p : α × ℚ) : Option (α × ℚ) → α × ℚ
  | none => p
  | some q => if p.2 < q.2 then q else p

/-- Python max(d, key=lambda x: d[x]): first entry (in insertion order)
holding the maximal value. -/
def firstMaxBy {α : Type} : List (α × ℚ) → Option (α × ℚ)
  | [] => none
  | p :: l => some (pickMax p (firstMaxBy l))

/-- The expression (min if self.larger_better else max)(self._topk_model,
key=lambda x: self._topk_model[x]) from CheckpointCallback._save_topk. -/
def leastValuable {α : Type} (larger_better : Bool) (l : List (α × ℚ)) :
    Option (α × ℚ) :=
  if larger_better then firstMinBy l else firstMaxBy l

/-- One call of the decision part of CheckpointCallback._save_topk with
save_topk = K (lines 192-207 of checkpoint_callback.py): while _topn < K the
candidate is admitted; once full, the least valuable entry is computed, and
the candidate is admitted (with that entry popped) exactly when it is strictly
better.  The insertion happens before the pop, as in the source.  A None
result of leastValuable is unreachable for K >= 1 (Python min would raise on
an empty dict). -/
def saveTopkConsider {α : Type} [DecidableEq α] (K : ℕ) (larger_better : Bool)
    (s : TopkState α) (id : α) (v : ℚ) : TopkState α × Decision α :=
  if s.topn < K then
    (⟨dictInsert s.topk_model id v, s.topn + 1⟩, Decision.admitted)
  else
    match leastValuable larger_better s.topk_model with
    | none => (s, Decision.rejected)
    | some p =>
      if (larger_better = true ∧ p.2 < v) ∨ (larger_better = false ∧ v < p.2) then
        (⟨dictRemove (dictInsert s.topk_model id v) p.1, s.topn⟩, Decision.evicted p.1)
      else (s, Decision.rejected)

/-- Runs a sequence of _save_topk considerations from a given state, collecting
the final state and the list of decisions. -/
def runTrace {α : Type} [DecidableEq α] (K : ℕ) (larger_better : Bool)
    (s : TopkState α) : List (α × ℚ) → TopkState α × List (Decision α)
  | [] => (s, [])
  | c :: cs =>
    let step := saveTopkConsider K larger_better s c.1 c.2
    let rest := runTrace K larger_better step.1 cs
    (rest.1, step.2 :: rest.2)

/-- State after running a whole sequence of considerations from the initial
state. -/
def runSaveTopk {α : Type} [DecidableEq α] (K : ℕ) (larger_better : Bool)
    (cs : List (α × ℚ)) : TopkState α :=
  (runTrace K larger_better (initTopk α) cs).1

/-- Decisions along a whole run from the initial state. -/
def runDecisions {α : Type} [DecidableEq α] (K : ℕ) (larger_better : Bool)
    (cs : List (α × ℚ)) : List (Decision α) :=
  (runTrace K larger_better (initTopk α) cs).2

/-- A decision that saves a model (spec: Admit or AdmitAndEvict). -/
def Decision.isAdmission {α : Type} : Decision α → Bool
  | Decision.rejected => false
  | _ => true

/-- Number of admissions among a list of decisions. -/
def countAdmitted {α : Type} (ds : List (Decision α)) : ℕ :=
  (ds.filter Decision.isAdmission).length

example :
    runSaveTopk 2 true [((0 : ℕ), (5 : ℚ)), (1, 5), (2, 7)] =
      ⟨[(1, 5), (2, 7)], 2⟩ := by decide

/-- Multiset of metric values held by an association list. -/
def vals {α : Type} (l : List (α × ℚ)) : Multiset ℚ :=
  (l.map Prod.snd : List ℚ)

theorem vals_append_single {α : Type} (l : List (α × ℚ)) (id : α) (v : ℚ) :
    vals (l ++ [(id, v)]) = v ::ₘ vals l := by
  unfold vals
  simp only [List.map_append, List.map_cons, List.map_nil]
  rw [Multiset.cons_coe]
  exact Multiset.coe_eq_coe.mpr (List.perm_append_singleton v (l.map Prod.snd))

theorem vals_card {α : Type} (l : List (α × ℚ)) :
    Multiset.card (vals l) = l.length := by
  simp [vals]

theorem dictInsert_of_not_mem {α : Type} [DecidableEq α] {l : List (α × ℚ)} {k : α}
    (v : ℚ) (h : k ∉ l.map Prod.fst) : dictInsert l k v = l ++ [(k, v)] := by
  induction l with
  | nil => rfl
  | cons p t ih =>
    simp only [List.map_cons, List.mem_cons, not_or] at h
    simp [dictInsert, Ne.symm h.1, ih h.2]

theorem dictRemove_sublist {α : Type} [DecidableEq α] (l : List (α × ℚ)) (k : α) :
    List.Sublist (dictRemove l k) l := by
  induction l with
  | nil => exact List.Sublist.refl _
  | cons p t ih =>
    by_cases h : p.1 = k
    · simp only [dictRemove, if_pos h]
      exact (List.Sublist.refl t).cons p
    · simp only [dictRemove, if_neg h]
      exact ih.cons₂ p

theorem dictRemove_length {α : Type} [DecidableEq α] {l : List (α × ℚ)} {k : α}
    (h : k ∈ l.map Prod.fst) : (dictRemove l k).length + 1 = l.length := by
  induction l with
  | nil => cases h
  | cons p t ih =>
    by_cases hp : p.1 = k
    · simp [dictRemove, hp]
    · rw [List.map_cons] at h
      rcases List.mem_cons.mp h with h1 | h1
      · exact absurd h1.symm hp
      · simp only [dictRemove, if_neg hp, List.length_cons]
        have := ih h1
        omega

theorem dictRemove_not_mem_keys {α : Type} [DecidableEq α] {l : List (α × ℚ)}
    (hnd : (l.map Prod.fst).Nodup) (k : α) :
    k ∉ (dictRemove l k).map Prod.fst := by
  induction l with
  | nil => simp [dictRemove]
  | cons p t ih =>
    rw [List.map_cons, List.nodup_cons] at hnd
    by_cases hp : p.1 = k
    · simp only [dictRemove, if_pos hp]
      exact hp ▸ hnd.1
    · simp only [dictRemove, if_neg hp, List.map_cons]
      intro hmem
      rcases List.mem_cons.mp hmem with h1 | h1
      · exact hp h1.symm
      · exact ih hnd.2 h1

theorem dictRemove_mem_keys_of_ne {α : Type} [DecidableEq α] {l : List (α × ℚ)}
    {k k' : α} (hne : k' ≠ k) (h : k' ∈ l.map Prod.fst) :
    k' ∈ (dictRemove l k).map Prod.fst := by
  induction l with
  | nil => cases h
  | cons p t ih =>
    rw [List.map_cons] at h
    rcases List.mem_cons.mp h with h1 | h1
    · have hp : ¬ p.1 = k := fun hk => hne (h1.trans hk)
      simp only [dictRemove, if_neg hp, List.map_cons]
      exact List.mem_cons.mpr (Or.inl h1)
    · by_cases hp : p.1 = k
      · simp only [dictRemove, if_pos hp]
        exact h1
      · simp only [dictRemove, if_neg hp, List.map_cons]
        exact List.mem_cons.mpr (Or.inr (ih h1))

theorem erase_cons_of_mem {β : Type} [DecidableEq β] {a b : β} {s : Multiset β}
    (h : b ∈ s) : (a ::ₘ s).erase b = a ::ₘ s.erase b := by
  by_cases hab : b = a
  · subst hab
    rw [Multiset.erase_cons_head, Multiset.cons_erase h]
  · exact Multiset.erase_cons_tail s (Ne.symm hab)

theorem vals_cons {α : Type} (q : α × ℚ) (t : List (α × ℚ)) :
    vals (q :: t) = q.2 ::ₘ vals t := by
  unfold vals
  rw [List.map_cons, Multiset.cons_coe]

theorem vals_dictRemove {α : Type} [DecidableEq α] {l : List (α × ℚ)} {p : α × ℚ}
    (hnd : (l.map Prod.fst).Nodup) (hmem : p ∈ l) :
    vals (dictRemove l p.1) = (vals l).erase p.2 := by
  induction l with
  | nil => cases hmem
  | cons q t ih =>
    rw [List.map_cons, List.nodup_cons] at hnd
    by_cases hq : q.1 = p.1
    · have hqp : q = p := by
        rcases List.mem_cons.mp hmem with h1 | h1
        · exact h1.symm
        · exact absurd (hq ▸ List.mem_map_of_mem Prod.fst h1) hnd.1
      subst hqp
      simp only [dictRemove, hq, if_true, eq_self_iff_true, vals_cons, Multiset.erase_cons_head]
    · have hmem' : p ∈ t := by
        rcases List.mem_cons.mp hmem with h1 | h1
        · exact absurd (congrArg Prod.fst h1.symm) hq
        · exact h1
      have hv : p.2 ∈ vals t := by
        unfold vals
        rw [Multiset.mem_coe]
        exact List.mem_map_of_mem Prod.snd hmem'
      simp only [dictRemove, if_neg hq, vals_cons]
      rw [ih hnd.2 hmem', erase_cons_of_mem hv]

theorem firstMinBy_mem {α : Type} {l : List (α × ℚ)} {p : α × ℚ}
    (h : firstMinBy l = some p) : p ∈ l := by
  induction l generalizing p with
  | nil => cases h
  | cons q t ih =>
    simp only [firstMinBy, Option.some.injEq] at h
    cases ht : firstMinBy t with
    | none =>
      rw [ht, pickMin] at h
      subst h
      exact List.mem_cons_self q t
    | some r =>
      rw [ht, pickMin] at h
      by_cases hlt : r.2 < q.2
      · rw [if_pos hlt] at h
        subst h
        exact List.mem_cons_of_mem q (ih ht)
      · rw [if_neg hlt] at h
        subst h
        exact List.mem_cons_self q t

theorem firstMinBy_le {α : Type} {l : List (α × ℚ)} {p : α × ℚ}
    (h : firstMinBy l = some p) : ∀ q ∈ l, p.2 ≤ q.2 := by
  induction l generalizing p with
  | nil => cases h
  | cons q t ih =>
    simp only [firstMinBy, Option.some.injEq] at h
    intro x hx
    cases ht : firstMinBy t with
    | none =>
      rw [ht, pickMin] at h
      subst h
      cases t with
      | nil =>
        rcases List.mem_cons.mp hx with h1 | h1
        · exact le_of_eq (congrArg Prod.snd h1.symm)
        · cases h1
      | cons a t' => cases ht
    | some r =>
      rw [ht, pickMin] at h
      rcases List.mem_cons.mp hx with h1 | h1
      · by_cases hlt : r.2 < q.2
        · rw [if_pos hlt] at h
          subst h
          exact le_of_lt (h1 ▸ hlt)
        · rw [if_neg hlt] at h
          subst h
          exact le_of_eq (congrArg Prod.snd h1.symm)
      · by_cases hlt : r.2 < q.2
        · rw [if_pos hlt] at h
          subst h
          exact ih ht x h1
        · rw [if_neg hlt] at h
          subst h
          exact le_trans (le_of_not_lt hlt) (ih ht x h1)

theorem firstMinBy_isSome {α : Type} {l : List (α × ℚ)} (h : l ≠ []) :
    ∃ p, firstMinBy l = some p := by
  cases l with
  | nil => exact absurd rfl h
  | cons q t => exact ⟨pickMin q (firstMinBy t), rfl⟩

theorem firstMaxBy_mem {α : Type} {l : List (α × ℚ)} {p : α × ℚ}
    (h : firstMaxBy l = some p) : p ∈ l := by
  induction l generalizing p with
  | nil => cases h
  | cons q t ih =>
    simp only [firstMaxBy, Option.some.injEq] at h
    cases ht : firstMaxBy t with
    | none =>
      rw [ht, pickMax] at h
      subst h
      exact List.mem_cons_self q t
    | some r =>
      rw [ht, pickMax] at h
      by_cases hlt : q.2 < r.2
      · rw [if_pos hlt] at h
        subst h
        exact List.mem_cons_of_mem q (ih ht)
      · rw [if_neg hlt] at h
        subst h
        exact List.mem_cons_self q t

theorem firstMaxBy_isSome {α : Type} {l : List (α × ℚ)} (h : l ≠ []) :
    ∃ p, firstMaxBy l = some p := by
  cases l with
  | nil => exact absurd rfl h
  | cons q t => exact ⟨pickMax q (firstMaxBy t), rfl⟩

theorem leastValuable_mem {α : Type} {lb : Bool} {l : List (α × ℚ)} {p : α × ℚ}
    (h : leastValuable lb l = some p) : p ∈ l := by
  cases lb with
  | true => exact firstMinBy_mem (by simpa [leastValuable] using h)
  | false => exact firstMaxBy_mem (by simpa [leastValuable] using h)

theorem leastValuable_isSome {α : Type} (lb : Bool) {l : List (α × ℚ)} (h : l ≠ []) :
    ∃ p, leastValuable lb l = some p := by
  cases lb with
  | true => simpa [leastValuable] using firstMinBy_isSome h
  | false => simpa [leastValuable] using firstMaxBy_isSome h

/-- Unfolding of one _save_topk consideration while the retention set is not
yet full (_topn < save_topk). -/
theorem saveTopkConsider_phase1 {α : Type} [DecidableEq α] {K : ℕ} {lb : Bool}
    {s : TopkState α} (h : s.topn < K) (id : α) (v : ℚ) :
    saveTopkConsider K lb s id v =
      (⟨dictInsert s.topk_model id v, s.topn + 1⟩, Decision.admitted) := by
  unfold saveTopkConsider
  rw [if_pos h]

/-- Unfolding of one _save_topk consideration once the retention set is full:
the candidate is compared against the least valuable retained entry. -/
theorem saveTopkConsider_full {α : Type} [DecidableEq α] {K : ℕ} {lb : Bool}
    {s : TopkState α} {p : α × ℚ} (h : ¬ s.topn < K)
    (hp : leastValuable lb s.topk_model = some p) (id : α) (v : ℚ) :
    saveTopkConsider K lb s id v =
      if (lb = true ∧ p.2 < v) ∨ (lb = false ∧ v < p.2) then
        (⟨dictRemove (dictInsert s.topk_model id v) p.1, s.topn⟩, Decision.evicted p.1)
      else (s, Decision.rejected) := by
  unfold saveTopkConsider
  rw [if_neg h, hp]

/-- Unfolding of one _save_topk consideration when the retention set is full
but empty (only possible for K = 0, unreachable in the source where
save_topk >= 1 and Python min would raise). -/
theorem saveTopkConsider_full_none {α : Type} [DecidableEq α] {K : ℕ} {lb : Bool}
    {s : TopkState α} (h : ¬ s.topn < K)
    (hp : leastValuable lb s.topk_model = none) (id : α) (v : ℚ) :
    saveTopkConsider K lb s id v = (s, Decision.rejected) := by
  unfold saveTopkConsider
  rw [if_neg h, hp]

/-- The multiset V is exactly the multiset of the K largest members of S:
it is contained in S, has as many members as possible up to K, and every
member of S left outside V is bounded by every member of V. -/
def IsTopKSelection (K : ℕ) (S V : Multiset ℚ) : Prop :=
  V ≤ S ∧ Multiset.card V = min (Multiset.card S) K ∧
    ∀ a ∈ V, ∀ b : ℚ, V.count b < S.count b → b ≤ a

theorem isTopK_fill {K : ℕ} {S V : Multiset ℚ} (h : IsTopKSelection K S V)
    (hlt : Multiset.card S < K) (v : ℚ) :
    IsTopKSelection K (v ::ₘ S) (v ::ₘ V) := by
  obtain ⟨hle, hcard, _⟩ := h
  have hVS : V = S := by
    apply Multiset.eq_of_le_of_card_le hle
    rw [hcard, min_eq_left (le_of_lt hlt)]
  subst hVS
  refine ⟨le_refl _, ?_, ?_⟩
  · rw [Multiset.card_cons, min_eq_left]
    omega
  · intro a _ b hb
    exact absurd hb (lt_irrefl _)

theorem isTopK_evict {K : ℕ} {S V : Multiset ℚ} (h : IsTopKSelection K S V)
    (hK : Multiset.card V = K) {m v : ℚ} (hm : m ∈ V) (hmin : ∀ x ∈ V, m ≤ x)
    (hv : m < v) : IsTopKSelection K (v ::ₘ S) (v ::ₘ V.erase m) := by
  obtain ⟨hle, hcard, hdom⟩ := h
  have hSK : K ≤ Multiset.card S := by
    have := Multiset.card_le_card hle
    omega
  have hK1 : 1 ≤ K := by
    rw [← hK]
    exact Multiset.card_pos_iff_exists_mem.mpr ⟨m, hm⟩
  refine ⟨?_, ?_, ?_⟩
  · exact Multiset.cons_le_cons v (le_trans (Multiset.erase_le m V) hle)
  · rw [Multiset.card_cons, Multiset.card_cons, Multiset.card_erase_of_mem hm,
      hK, Nat.pred_eq_sub_one, min_eq_right (by omega)]
    omega
  · intro a ha b hb
    have hbm : b ≤ m := by
      by_cases hbm' : b = m
      · exact le_of_eq hbm'
      · have hbv : Multiset.count b (V.erase m) = Multiset.count b V :=
          Multiset.count_erase_of_ne hbm' V
        have hb' : Multiset.count b V < Multiset.count b S := by
          by_cases hbv' : b = v
          · subst hbv'
            rw [Multiset.count_cons_self, Multiset.count_cons_self, hbv] at hb
            omega
          · rw [Multiset.count_cons_of_ne hbv', Multiset.count_cons_of_ne hbv',
              hbv] at hb
            exact hb
        exact hdom m hm b hb'
    rcases Multiset.mem_cons.mp ha with ha1 | ha1
    · subst ha1
      exact le_of_lt (lt_of_le_of_lt hbm hv)
    · exact le_trans hbm (hmin a (Multiset.mem_of_mem_erase ha1))

theorem isTopK_reject {K : ℕ} {S V : Multiset ℚ} (h : IsTopKSelection K S V)
    (hK : Multiset.card V = K) {m v : ℚ} (_hm : m ∈ V) (hmin : ∀ x ∈ V, m ≤ x)
    (hv : v ≤ m) : IsTopKSelection K (v ::ₘ S) V := by
  obtain ⟨hle, hcard, hdom⟩ := h
  have hSK : K ≤ Multiset.card S := by
    have := Multiset.card_le_card hle
    omega
  refine ⟨le_trans hle (Multiset.le_cons_self S v), ?_, ?_⟩
  · rw [Multiset.card_cons, hK, min_eq_right]
    omega
  · intro a ha b hb
    by_cases hbv : b = v
    · subst hbv
      exact le_trans hv (hmin a ha)
    · rw [Multiset.count_cons, if_neg hbv] at hb
      have hb' : V.count b < S.count b := by omega
      exact hdom a ha b hb'

theorem mem_vals {α : Type} {l : List (α × ℚ)} {x : ℚ} :
    x ∈ vals l ↔ ∃ q ∈ l, q.2 = x := by
  simp [vals]

/-- Invariant of the _save_topk retention loop with larger_better = True after
the candidates cs (with pairwise distinct ids) have been considered: the
retained dict has distinct keys drawn from the considered ids, its size equals
_topn which equals min(number considered, K), and its values are exactly the K
largest metric values considered so far. -/
structure TopkInv {α : Type} [DecidableEq α] (K : ℕ) (cs : List (α × ℚ))
    (s : TopkState α) : Prop where
  keys_sub : ∀ k ∈ s.topk_model.map Prod.fst, k ∈ cs.map Prod.fst
  keys_nd : (s.topk_model.map Prod.fst).Nodup
  len_eq : s.topk_model.length = s.topn
  topn_eq : s.topn = min cs.length K
  tops : IsTopKSelection K (vals cs) (vals s.topk_model)

theorem topkInv_init {α : Type} [DecidableEq α] (K : ℕ) :
    TopkInv K ([] : List (α × ℚ)) (initTopk α) := by
  refine ⟨?_, ?_, ?_, ?_, ?_⟩
  · intro k hk
    cases hk
  · exact List.nodup_nil
  · rfl
  · simp [initTopk]
  · exact ⟨le_refl _, by simp [initTopk, vals], fun a ha => absurd ha (Multiset.not_mem_zero a)⟩

theorem topkInv_step {α : Type} [DecidableEq α] {K : ℕ} (hK : 1 ≤ K)
    {cs : List (α × ℚ)} {s : TopkState α} (inv : TopkInv K cs s)
    (id : α) (v : ℚ) (hid : id ∉ cs.map Prod.fst) :
    TopkInv K (cs ++ [(id, v)]) (saveTopkConsider K true s id v).1 := by
  have hid' : id ∉ s.topk_model.map Prod.fst := fun h => hid (inv.keys_sub id h)
  have hkeysA : (cs ++ [(id, v)]).map Prod.fst = cs.map Prod.fst ++ [id] := by
    simp
  have hlenA : (cs ++ [(id, v)]).length = cs.length + 1 := by
    simp
  by_cases hlt : s.topn < K
  · -- not yet full: the candidate is appended
    rw [saveTopkConsider_phase1 hlt]
    have hins : dictInsert s.topk_model id v = s.topk_model ++ [(id, v)] :=
      dictInsert_of_not_mem v hid'
    have hkeysB : (s.topk_model ++ [(id, v)]).map Prod.fst =
        s.topk_model.map Prod.fst ++ [id] := by
      simp
    refine ⟨?_, ?_, ?_, ?_, ?_⟩
    · intro k hk
      rw [hins, hkeysB] at hk
      rw [hkeysA]
      rcases List.mem_append.mp hk with h1 | h1
      · exact List.mem_append.mpr (Or.inl (inv.keys_sub k h1))
      · exact List.mem_append.mpr (Or.inr h1)
    · rw [hins, hkeysB]
      exact inv.keys_nd.append (List.nodup_singleton id)
        (fun a ha hb => hid' (List.mem_singleton.mp hb ▸ ha))
    · rw [hins]
      simp [inv.len_eq]
    · have h1 := inv.topn_eq
      rw [hlenA]
      show s.topn + 1 = min (cs.length + 1) K
      omega
    · have hcs : cs.length < K := by
        have h1 := inv.topn_eq
        omega
      have hcard : Multiset.card (vals cs) < K := by
        rw [vals_card]
        exact hcs
      rw [hins]
      show IsTopKSelection K (vals (cs ++ [(id, v)])) (vals (s.topk_model ++ [(id, v)]))
      rw [vals_append_single, vals_append_single]
      exact isTopK_fill inv.tops hcard v
  · -- full: compare with the least valuable entry
    have hfull : s.topn = K := by
      have h1 := inv.topn_eq
      omega
    have hlen : s.topk_model.length = K := inv.len_eq.trans hfull
    have hne : s.topk_model ≠ [] := by
      intro h0
      rw [h0] at hlen
      simp at hlen
      omega
    obtain ⟨p, hp⟩ := leastValuable_isSome true hne
    have hpmem : p ∈ s.topk_model := leastValuable_mem hp
    have hpmin : ∀ q ∈ s.topk_model, p.2 ≤ q.2 :=
      firstMinBy_le (by simpa [leastValuable] using hp)
    have hm : p.2 ∈ vals s.topk_model := mem_vals.mpr ⟨p, hpmem, rfl⟩
    have hmin' : ∀ x ∈ vals s.topk_model, p.2 ≤ x := by
      intro x hx
      obtain ⟨q, hq, rfl⟩ := mem_vals.mp hx
      exact hpmin q hq
    have hcardV : Multiset.card (vals s.topk_model) = K := by
      rw [vals_card]
      exact hlen
    have hcs : K ≤ cs.length := by
      have h1 := inv.topn_eq
      omega
    rw [saveTopkConsider_full hlt hp]
    by_cases hcond : p.2 < v
    · rw [if_pos (Or.inl ⟨rfl, hcond⟩)]
      have hins : dictInsert s.topk_model id v = s.topk_model ++ [(id, v)] :=
        dictInsert_of_not_mem v hid'
      rw [hins]
      have hkeysB : (s.topk_model ++ [(id, v)]).map Prod.fst =
          s.topk_model.map Prod.fst ++ [id] := by
        simp
      have hndB : ((s.topk_model ++ [(id, v)]).map Prod.fst).Nodup := by
        rw [hkeysB]
        exact inv.keys_nd.append (List.nodup_singleton id)
          (fun a ha hb => hid' (List.mem_singleton.mp hb ▸ ha))
      have hpB : p ∈ s.topk_model ++ [(id, v)] := List.mem_append.mpr (Or.inl hpmem)
      have hkeyB : p.1 ∈ (s.topk_model ++ [(id, v)]).map Prod.fst :=
        List.mem_map_of_mem Prod.fst hpB
      have hsub := dictRemove_sublist (s.topk_model ++ [(id, v)]) p.1
      refine ⟨?_, ?_, ?_, ?_, ?_⟩
      · intro k hk
        have hk2 : k ∈ (s.topk_model ++ [(id, v)]).map Prod.fst :=
          (hsub.map Prod.fst).subset hk
        rw [hkeysB] at hk2
        rw [hkeysA]
        rcases List.mem_append.mp hk2 with h1 | h1
        · exact List.mem_append.mpr (Or.inl (inv.keys_sub k h1))
        · exact List.mem_append.mpr (Or.inr h1)
      · exact hndB.sublist (hsub.map Prod.fst)
      · have h2 := dictRemove_length hkeyB
        have h3 : (s.topk_model ++ [(id, v)]).length = K + 1 := by
          simp [hlen]
        show (dictRemove (s.topk_model ++ [(id, v)]) p.1).length = s.topn
        omega
      · rw [hlenA]
        show s.topn = min (cs.length + 1) K
        omega
      · have hvD : vals (dictRemove (s.topk_model ++ [(id, v)]) p.1) =
            (vals (s.topk_model ++ [(id, v)])).erase p.2 :=
          vals_dictRemove hndB hpB
        show IsTopKSelection K (vals (cs ++ [(id, v)]))
          (vals (dictRemove (s.topk_model ++ [(id, v)]) p.1))
        rw [hvD, vals_append_single, vals_append_single,
          erase_cons_of_mem hm]
        exact isTopK_evict inv.tops hcardV hm hmin' hcond
    · rw [if_neg (by simp [hcond])]
      refine ⟨?_, ?_, ?_, ?_, ?_⟩
      · intro k hk
        rw [hkeysA]
        exact List.mem_append.mpr (Or.inl (inv.keys_sub k hk))
      · exact inv.keys_nd
      · exact inv.len_eq
      · rw [hlenA]
        show s.topn = min (cs.length + 1) K
        omega
      · show IsTopKSelection K (vals (cs ++ [(id, v)])) (vals s.topk_model)
        rw [vals_append_single]
        exact isTopK_reject inv.tops hcardV hm hmin' (le_of_not_lt hcond)

theorem topkInv_run_aux {α : Type} [DecidableEq α] {K : ℕ} (hK : 1 ≤ K) :
    ∀ (rest done : List (α × ℚ)) (s : TopkState α),
      TopkInv K done s →
      ((done ++ rest).map Prod.fst).Nodup →
      TopkInv K (done ++ rest) (runTrace K true s rest).1 := by
  intro rest
  induction rest with
  | nil =>
    intro done s inv _
    simpa [runTrace] using inv
  | cons c rest ih =>
    intro done s inv hnd
    have hcfresh : c.1 ∉ done.map Prod.fst := by
      rw [List.map_append] at hnd
      have hdisj := (List.nodup_append.mp hnd).2.2
      intro hmem
      exact hdisj hmem (by simp)
    have hstep := topkInv_step hK inv c.1 c.2 hcfresh
    have hstep' : TopkInv K (done ++ [c])
        (saveTopkConsider K true s c.1 c.2).1 := by
      simpa using hstep
    have hnd' : (((done ++ [c]) ++ rest).map Prod.fst).Nodup := by
      simpa [List.append_assoc] using hnd
    have := ih (done ++ [c]) (saveTopkConsider K true s c.1 c.2).1 hstep' hnd'
    have heq : (done ++ [c]) ++ rest = done ++ c :: rest := by
      simp
    rw [heq] at this
    simpa [runTrace] using this

/-- The retention invariant holds after any run of considerations with
pairwise distinct candidate ids and larger_better = True. -/
theorem topkInv_run {α : Type} [DecidableEq α] {K : ℕ} (hK : 1 ≤ K)
    (cs : List (α × ℚ)) (hnd : (cs.map Prod.fst).Nodup) :
    TopkInv K cs (runSaveTopk K true cs) := by
  have := topkInv_run_aux hK cs [] (initTopk α) (topkInv_init K) (by simpa using hnd)
  simpa [runSaveTopk] using this

theorem countAdmitted_cons {α : Type} (d : Decision α) (ds : List (Decision α)) :
    countAdmitted (d :: ds) =
      if d.isAdmission then countAdmitted ds + 1 else countAdmitted ds := by
  unfold countAdmitted
  rw [List.filter_cons]
  by_cases h : d.isAdmission <;> simp [h]

/-- Structural invariant of the retention loop, for either comparison
direction: distinct keys drawn from the start state and the considered ids,
dict size equal to _topn, and _topn equal to the number of admissions capped
at K. -/
theorem runTrace_struct {α : Type} [DecidableEq α] {K : ℕ} (lb : Bool) :
    ∀ (cs : List (α × ℚ)) (s : TopkState α) (cnt : ℕ),
      (s.topk_model.map Prod.fst).Nodup →
      s.topk_model.length = s.topn →
      s.topn = min cnt K →
      (cs.map Prod.fst).Nodup →
      (∀ k ∈ s.topk_model.map Prod.fst, k ∉ cs.map Prod.fst) →
      ((runTrace K lb s cs).1.topk_model.map Prod.fst).Nodup ∧
        (runTrace K lb s cs).1.topk_model.length = (runTrace K lb s cs).1.topn ∧
        (runTrace K lb s cs).1.topn =
          min (cnt + countAdmitted (runTrace K lb s cs).2) K ∧
        (∀ k ∈ (runTrace K lb s cs).1.topk_model.map Prod.fst,
          k ∈ s.topk_model.map Prod.fst ∨ k ∈ cs.map Prod.fst) := by
  intro cs
  induction cs with
  | nil =>
    intro s cnt h1 h2 h3 _ _
    refine ⟨h1, h2, ?_, ?_⟩
    · show s.topn = min (cnt + countAdmitted ([] : List (Decision α))) K
      simpa [countAdmitted] using h3
    · intro k hk
      exact Or.inl hk
  | cons c cs ih =>
    intro s cnt h1 h2 h3 hnd hdisj
    have hndc : (cs.map Prod.fst).Nodup := by
      rw [List.map_cons, List.nodup_cons] at hnd
      exact hnd.2
    have hcfree : c.1 ∉ cs.map Prod.fst := by
      rw [List.map_cons, List.nodup_cons] at hnd
      exact hnd.1
    have hfresh : c.1 ∉ s.topk_model.map Prod.fst := by
      intro h
      exact hdisj c.1 h (by rw [List.map_cons]; exact List.mem_cons_self _ _)
    have hdisj' : ∀ k ∈ s.topk_model.map Prod.fst, k ∉ cs.map Prod.fst := by
      intro k hk hkcs
      exact hdisj k hk (by rw [List.map_cons]; exact List.mem_cons_of_mem _ hkcs)
    have hrun : runTrace K lb s (c :: cs) =
        ((runTrace K lb (saveTopkConsider K lb s c.1 c.2).1 cs).1,
          (saveTopkConsider K lb s c.1 c.2).2 ::
            (runTrace K lb (saveTopkConsider K lb s c.1 c.2).1 cs).2) := rfl
    by_cases hlt : s.topn < K
    · -- not yet full: admission
      have hstep : saveTopkConsider K lb s c.1 c.2 =
          (⟨dictInsert s.topk_model c.1 c.2, s.topn + 1⟩, Decision.admitted) :=
        saveTopkConsider_phase1 hlt c.1 c.2
      have hrun1 : runTrace K lb s (c :: cs) =
          ((runTrace K lb (⟨dictInsert s.topk_model c.1 c.2, s.topn + 1⟩ :
              TopkState α) cs).1,
            Decision.admitted :: (runTrace K lb (⟨dictInsert s.topk_model c.1 c.2,
              s.topn + 1⟩ : TopkState α) cs).2) := by
        rw [hrun, hstep]
      rw [hrun1]
      have hins : dictInsert s.topk_model c.1 c.2 = s.topk_model ++ [(c.1, c.2)] :=
        dictInsert_of_not_mem c.2 hfresh
      have hkeysB : (s.topk_model ++ [(c.1, c.2)]).map Prod.fst =
          s.topk_model.map Prod.fst ++ [c.1] := by
        simp
      have h1' : ((⟨dictInsert s.topk_model c.1 c.2, s.topn + 1⟩ :
          TopkState α).topk_model.map Prod.fst).Nodup := by
        show ((dictInsert s.topk_model c.1 c.2).map Prod.fst).Nodup
        rw [hins, hkeysB]
        exact h1.append (List.nodup_singleton c.1)
          (fun a ha hb => hfresh (List.mem_singleton.mp hb ▸ ha))
      have h2' : (⟨dictInsert s.topk_model c.1 c.2, s.topn + 1⟩ :
          TopkState α).topk_model.length = s.topn + 1 := by
        show (dictInsert s.topk_model c.1 c.2).length = s.topn + 1
        rw [hins]
        simp [h2]
      have h3' : s.topn + 1 = min (cnt + 1) K := by omega
      have hdisjB : ∀ k ∈ (dictInsert s.topk_model c.1 c.2).map Prod.fst,
          k ∉ cs.map Prod.fst := by
        rw [hins, hkeysB]
        intro k hk
        rcases List.mem_append.mp hk with hk1 | hk1
        · exact hdisj' k hk1
        · exact List.mem_singleton.mp hk1 ▸ hcfree
      have hrest := ih (⟨dictInsert s.topk_model c.1 c.2, s.topn + 1⟩ :
        TopkState α) (cnt + 1) h1' h2' h3' hndc hdisjB
      refine ⟨hrest.1, hrest.2.1, ?_, ?_⟩
      · rw [countAdmitted_cons]
        have hd : (Decision.admitted : Decision α).isAdmission = true := rfl
        rw [hd, if_pos rfl]
        have := hrest.2.2.1
        show (runTrace K lb (⟨dictInsert s.topk_model c.1 c.2, s.topn + 1⟩ :
            TopkState α) cs).1.topn =
          min (cnt + (countAdmitted (runTrace K lb (⟨dictInsert s.topk_model c.1 c.2,
            s.topn + 1⟩ : TopkState α) cs).2 + 1)) K
        omega
      · intro k hk
        rcases hrest.2.2.2 k hk with hk1 | hk1
        · have : k ∈ (s.topk_model ++ [(c.1, c.2)]).map Prod.fst := hins ▸ hk1
          rw [hkeysB] at this
          rcases List.mem_append.mp this with hk2 | hk2
          · exact Or.inl hk2
          · refine Or.inr ?_
            rw [List.map_cons]
            exact List.mem_cons.mpr (Or.inl (List.mem_singleton.mp hk2))
        · refine Or.inr ?_
          rw [List.map_cons]
          exact List.mem_cons_of_mem _ hk1
    · -- full
      cases hp : leastValuable lb s.topk_model with
      | none =>
        have hstep : saveTopkConsider K lb s c.1 c.2 = (s, Decision.rejected) :=
          saveTopkConsider_full_none hlt hp c.1 c.2
        have hrun1 : runTrace K lb s (c :: cs) =
            ((runTrace K lb s cs).1,
              Decision.rejected :: (runTrace K lb s cs).2) := by
          rw [hrun, hstep]
        rw [hrun1]
        have hrest := ih s cnt h1 h2 h3 hndc hdisj'
        refine ⟨hrest.1, hrest.2.1, ?_, ?_⟩
        · rw [countAdmitted_cons]
          have hd : (Decision.rejected : Decision α).isAdmission = false := rfl
          rw [hd, if_neg (by simp)]
          exact hrest.2.2.1
        · intro k hk
          rcases hrest.2.2.2 k hk with hk1 | hk1
          · exact Or.inl hk1
          · refine Or.inr ?_
            rw [List.map_cons]
            exact List.mem_cons_of_mem _ hk1
      | some p =>
        have hpmem := leastValuable_mem hp
        have hkey : p.1 ∈ s.topk_model.map Prod.fst :=
          List.mem_map_of_mem Prod.fst hpmem
        by_cases hcond : (lb = true ∧ p.2 < c.2) ∨ (lb = false ∧ c.2 < p.2)
        · have hstep : saveTopkConsider K lb s c.1 c.2 =
              (⟨dictRemove (dictInsert s.topk_model c.1 c.2) p.1, s.topn⟩,
                Decision.evicted p.1) := by
            rw [saveTopkConsider_full hlt hp, if_pos hcond]
          have hrun1 : runTrace K lb s (c :: cs) =
              ((runTrace K lb (⟨dictRemove (dictInsert s.topk_model c.1 c.2) p.1,
                  s.topn⟩ : TopkState α) cs).1,
                Decision.evicted p.1 :: (runTrace K lb
                  (⟨dictRemove (dictInsert s.topk_model c.1 c.2) p.1,
                    s.topn⟩ : TopkState α) cs).2) := by
            rw [hrun, hstep]
          rw [hrun1]
          have hins : dictInsert s.topk_model c.1 c.2 =
              s.topk_model ++ [(c.1, c.2)] := dictInsert_of_not_mem c.2 hfresh
          have hkeysB : (s.topk_model ++ [(c.1, c.2)]).map Prod.fst =
              s.topk_model.map Prod.fst ++ [c.1] := by
            simp
          have hndB : ((s.topk_model ++ [(c.1, c.2)]).map Prod.fst).Nodup := by
            rw [hkeysB]
            exact h1.append (List.nodup_singleton c.1)
              (fun a ha hb => hfresh (List.mem_singleton.mp hb ▸ ha))
          have hkeyB : p.1 ∈ (s.topk_model ++ [(c.1, c.2)]).map Prod.fst := by
            rw [hkeysB]
            exact List.mem_append.mpr (Or.inl hkey)
          have hsub := dictRemove_sublist (s.topk_model ++ [(c.1, c.2)]) p.1
          have h1' : ((dictRemove (dictInsert s.topk_model c.1 c.2) p.1).map
              Prod.fst).Nodup := by
            rw [hins]
            exact hndB.sublist (hsub.map Prod.fst)
          have h2' : (dictRemove (dictInsert s.topk_model c.1 c.2) p.1).length
              = s.topn := by
            rw [hins]
            have ha := dictRemove_length hkeyB
            have hb : (s.topk_model ++ [(c.1, c.2)]).length =
                s.topk_model.length + 1 := by
              simp
            omega
          have h3' : s.topn = min (cnt + 1) K := by omega
          have hkeySub : ∀ k ∈ (dictRemove (dictInsert s.topk_model c.1 c.2)
              p.1).map Prod.fst,
              k ∈ s.topk_model.map Prod.fst ∨ k = c.1 := by
            intro k hk
            rw [hins] at hk
            have hk2 : k ∈ (s.topk_model ++ [(c.1, c.2)]).map Prod.fst :=
              (hsub.map Prod.fst).subset hk
            rw [hkeysB] at hk2
            rcases List.mem_append.mp hk2 with hk1 | hk1
            · exact Or.inl hk1
            · exact Or.inr (List.mem_singleton.mp hk1)
          have hdisjB : ∀ k ∈ (dictRemove (dictInsert s.topk_model c.1 c.2)
              p.1).map Prod.fst, k ∉ cs.map Prod.fst := by
            intro k hk
            rcases hkeySub k hk with hk1 | hk1
            · exact hdisj' k hk1
            · exact hk1 ▸ hcfree
          have hrest := ih (⟨dictRemove (dictInsert s.topk_model c.1 c.2) p.1,
            s.topn⟩ : TopkState α) (cnt + 1) h1' h2' h3' hndc hdisjB
          refine ⟨hrest.1, hrest.2.1, ?_, ?_⟩
          · rw [countAdmitted_cons]
            have hd : (Decision.evicted p.1 : Decision α).isAdmission = true := rfl
            rw [hd, if_pos rfl]
            have := hrest.2.2.1
            show (runTrace K lb (⟨dictRemove (dictInsert s.topk_model c.1 c.2) p.1,
                s.topn⟩ : TopkState α) cs).1.topn =
              min (cnt + (countAdmitted (runTrace K lb
                (⟨dictRemove (dictInsert s.topk_model c.1 c.2) p.1,
                  s.topn⟩ : TopkState α) cs).2 + 1)) K
            omega
          · intro k hk
            rcases hrest.2.2.2 k hk with hk1 | hk1
            · rcases hkeySub k hk1 with hk2 | hk2
              · exact Or.inl hk2
              · refine Or.inr ?_
                rw [List.map_cons]
                exact List.mem_cons.mpr (Or.inl hk2)
            · refine Or.inr ?_
              rw [List.map_cons]
              exact List.mem_cons_of_mem _ hk1
        · have hstep : saveTopkConsider K lb s c.1 c.2 = (s, Decision.rejected) := by
            rw [saveTopkConsider_full hlt hp, if_neg hcond]
          have hrun1 : runTrace K lb s (c :: cs) =
              ((runTrace K lb s cs).1,
                Decision.rejected :: (runTrace K lb s cs).2) := by
            rw [hrun, hstep]
          rw [hrun1]
          have hrest := ih s cnt h1 h2 h3 hndc hdisj'
          refine ⟨hrest.1, hrest.2.1, ?_, ?_⟩
          · rw [countAdmitted_cons]
            have hd : (Decision.rejected : Decision α).isAdmission = false := rfl
            rw [hd, if_neg (by simp)]
            exact hrest.2.2.1
          · intro k hk
            rcases hrest.2.2.2 k hk with hk1 | hk1
            · exact Or.inl hk1
            · refine Or.inr ?_
              rw [List.map_cons]
              exact List.mem_cons_of_mem _ hk1

/-- Once the retention set is full, a consideration either rejects (leaving
the state unchanged) or admits with exactly one eviction. -/
theorem saveTopk_full_step {α : Type} [DecidableEq α] {K : ℕ} (hK : 1 ≤ K)
    (lb : Bool) {s : TopkState α} (hnd : (s.topk_model.map Prod.fst).Nodup)
    (hlen : s.topk_model.length = s.topn) (hfull : s.topn = K)
    {id : α} (hid : id ∉ s.topk_model.map Prod.fst) (v : ℚ) :
    saveTopkConsider K lb s id v = (s, Decision.rejected) ∨
    ∃ ek, ek ∈ s.topk_model.map Prod.fst ∧
      (saveTopkConsider K lb s id v).2 = Decision.evicted ek ∧
      (saveTopkConsider K lb s id v).1.topk_model.length = K ∧
      ek ∉ (saveTopkConsider K lb s id v).1.topk_model.map Prod.fst ∧
      id ∈ (saveTopkConsider K lb s id v).1.topk_model.map Prod.fst := by
  have hlt : ¬ s.topn < K := by omega
  have hne : s.topk_model ≠ [] := by
    intro h0
    rw [h0] at hlen
    simp at hlen
    omega
  obtain ⟨p, hp⟩ := leastValuable_isSome lb hne
  have hpmem := leastValuable_mem hp
  have hkey : p.1 ∈ s.topk_model.map Prod.fst := List.mem_map_of_mem Prod.fst hpmem
  have hins : dictInsert s.topk_model id v = s.topk_model ++ [(id, v)] :=
    dictInsert_of_not_mem v hid
  have hkeysB : (s.topk_model ++ [(id, v)]).map Prod.fst =
      s.topk_model.map Prod.fst ++ [id] := by
    simp
  have hndB : ((s.topk_model ++ [(id, v)]).map Prod.fst).Nodup := by
    rw [hkeysB]
    exact hnd.append (List.nodup_singleton id)
      (fun a ha hb => hid (List.mem_singleton.mp hb ▸ ha))
  have hkeyB : p.1 ∈ (s.topk_model ++ [(id, v)]).map Prod.fst := by
    rw [hkeysB]
    exact List.mem_append.mpr (Or.inl hkey)
  have hidne : id ≠ p.1 := fun h => hid (h ▸ hkey)
  rw [saveTopkConsider_full hlt hp]
  by_cases hcond : (lb = true ∧ p.2 < v) ∨ (lb = false ∧ v < p.2)
  · right
    rw [if_pos hcond]
    refine ⟨p.1, hkey, rfl, ?_, ?_, ?_⟩
    · show (dictRemove (dictInsert s.topk_model id v) p.1).length = K
      rw [hins]
      have ha := dictRemove_length hkeyB
      have hb : (s.topk_model ++ [(id, v)]).length = s.topk_model.length + 1 := by
        simp
      omega
    · show p.1 ∉ (dictRemove (dictInsert s.topk_model id v) p.1).map Prod.fst
      rw [hins]
      exact dictRemove_not_mem_keys hndB p.1
    · show id ∈ (dictRemove (dictInsert s.topk_model id v) p.1).map Prod.fst
      rw [hins]
      apply dictRemove_mem_keys_of_ne hidne
      rw [hkeysB]
      exact List.mem_append.mpr (Or.inr (List.mem_singleton.mpr rfl))
  · left
    rw [if_neg hcond]

/-- Insertion of an element into a list sorted by the relation r (r x y means
x must come before y). -/
def insertSorted {β : Type} (r : β → β → Bool) (x : β) : List β → List β
  | [] => [x]
  | y :: l => if r x y then x :: y :: l else y :: insertSorted r x l

/-- Insertion sort by the relation r. -/
def sortByRel {β : Type} (r : β → β → Bool) : List β → List β
  | [] => []
  | x :: l => insertSorted r x (sortByRel r l)

/-- Spec reading of the claimed retention order (claim C1): with
larger_better = True a candidate comes before another if its metric value is
strictly larger, or on equal values if it was seen earlier.  Candidates are
identified by their arrival index. -/
def specBeats (p q : ℕ × ℚ) : Bool :=
  decide (q.2 < p.2) || (decide (p.2 = q.2) && decide (p.1 < q.1))

/-- The retained mapping as the spec sentence describes it: the K best
candidates by value, ties broken in favour of the earlier-seen candidate. -/
def specTopKMapping (K : ℕ) (cs : List (ℕ × ℚ)) : List (ℕ × ℚ) :=
  (sortByRel specBeats cs).take K

/-- Claim C1, counterexample: with save_topk = 2, larger_better = True and
metric values 5, 5, 7 from candidates 0, 1, 2 (in arrival order), the claim
predicts retention of candidates 2 and 0 (ties broken in favour of the
earlier-seen candidate 0), but _save_topk evicts candidate 0 (Python min
returns the first minimal entry in insertion order) and retains candidates 1
and 2.  The retained values {5, 7} agree, the retained candidates do not. -/
theorem C1_counterexample :
    (runSaveTopk 2 true [((0 : ℕ), (5 : ℚ)), (1, 5), (2, 7)]).topk_model
        = [(1, 5), (2, 7)] ∧
    specTopKMapping 2 [((0 : ℕ), (5 : ℚ)), (1, 5), (2, 7)] = [(2, 7), (0, 5)] ∧
    (0, (5 : ℚ)) ∈ specTopKMapping 2 [((0 : ℕ), (5 : ℚ)), (1, 5), (2, 7)] ∧
    (0, (5 : ℚ)) ∉ (runSaveTopk 2 true [((0 : ℕ), (5 : ℚ)), (1, 5), (2, 7)]).topk_model := by
  refine ⟨by decide, by decide, by decide, by decide⟩

/-- Claim C1 (amended): for every sequence of considerations with distinct
candidate ids, save_topk = K >= 1 and larger_better = True, after any prefix
the retained mapping holds exactly the K largest metric values seen so far as
a multiset (which candidate is retained among equal values is decided by the
eviction order, not always in favour of the earlier-seen candidate); and once
the set is full, a candidate strictly better than the least-valuable entry is
admitted with exactly one eviction while an equal-or-worse candidate is
rejected leaving the mapping unchanged. -/
theorem C1_topk_retention_amended (K : ℕ) (hK : 1 ≤ K) (cs : List (ℕ × ℚ))
    (hnd : (cs.map Prod.fst).Nodup) :
    IsTopKSelection K (vals cs) (vals (runSaveTopk K true cs).topk_model) ∧
    (∀ id v, id ∉ cs.map Prod.fst → (runSaveTopk K true cs).topn = K →
      ∀ p, firstMinBy (runSaveTopk K true cs).topk_model = some p →
        (p.2 < v →
          (saveTopkConsider K true (runSaveTopk K true cs) id v).2 =
            Decision.evicted p.1 ∧
          (saveTopkConsider K true (runSaveTopk K true cs) id v).1.topk_model.length
            = K ∧
          p.1 ∉ (saveTopkConsider K true (runSaveTopk K true cs) id
            v).1.topk_model.map Prod.fst ∧
          id ∈ (saveTopkConsider K true (runSaveTopk K true cs) id
            v).1.topk_model.map Prod.fst ∧
          vals (saveTopkConsider K true (runSaveTopk K true cs) id v).1.topk_model
            = v ::ₘ (vals (runSaveTopk K true cs).topk_model).erase p.2) ∧
        (v ≤ p.2 →
          saveTopkConsider K true (runSaveTopk K true cs) id v =
            (runSaveTopk K true cs, Decision.rejected))) := by
  have inv := topkInv_run hK cs hnd
  refine ⟨inv.tops, ?_⟩
  intro id v hid hfull p hp
  have hid' : id ∉ (runSaveTopk K true cs).topk_model.map Prod.fst :=
    fun h => hid (inv.keys_sub id h)
  have hlt : ¬ (runSaveTopk K true cs).topn < K := by omega
  have hpL : leastValuable true (runSaveTopk K true cs).topk_model = some p := by
    simpa [leastValuable] using hp
  have hpmem : p ∈ (runSaveTopk K true cs).topk_model := firstMinBy_mem hp
  have hkey : p.1 ∈ (runSaveTopk K true cs).topk_model.map Prod.fst :=
    List.mem_map_of_mem Prod.fst hpmem
  have hidne : id ≠ p.1 := fun h => hid' (h ▸ hkey)
  have hins : dictInsert (runSaveTopk K true cs).topk_model id v =
      (runSaveTopk K true cs).topk_model ++ [(id, v)] :=
    dictInsert_of_not_mem v hid'
  have hkeysB : ((runSaveTopk K true cs).topk_model ++ [(id, v)]).map Prod.fst =
      (runSaveTopk K true cs).topk_model.map Prod.fst ++ [id] := by
    simp
  have hndB : (((runSaveTopk K true cs).topk_model ++ [(id, v)]).map
      Prod.fst).Nodup := by
    rw [hkeysB]
    exact inv.keys_nd.append (List.nodup_singleton id)
      (fun a ha hb => hid' (List.mem_singleton.mp hb ▸ ha))
  have hpB : p ∈ (runSaveTopk K true cs).topk_model ++ [(id, v)] :=
    List.mem_append.mpr (Or.inl hpmem)
  have hkeyB : p.1 ∈ ((runSaveTopk K true cs).topk_model ++ [(id, v)]).map
      Prod.fst := List.mem_map_of_mem Prod.fst hpB
  have hm : p.2 ∈ vals (runSaveTopk K true cs).topk_model :=
    mem_vals.mpr ⟨p, hpmem, rfl⟩
  constructor
  · intro hv
    have hstep : saveTopkConsider K true (runSaveTopk K true cs) id v =
        (⟨dictRemove (dictInsert (runSaveTopk K true cs).topk_model id v) p.1,
          (runSaveTopk K true cs).topn⟩, Decision.evicted p.1) := by
      rw [saveTopkConsider_full hlt hpL, if_pos (Or.inl ⟨rfl, hv⟩)]
    rw [hstep]
    refine ⟨rfl, ?_, ?_, ?_, ?_⟩
    · show (dictRemove (dictInsert (runSaveTopk K true cs).topk_model id v)
        p.1).length = K
      rw [hins]
      have ha := dictRemove_length hkeyB
      have hb : ((runSaveTopk K true cs).topk_model ++ [(id, v)]).length =
          (runSaveTopk K true cs).topk_model.length + 1 := by
        simp
      have hc := inv.len_eq
      omega
    · show p.1 ∉ (dictRemove (dictInsert (runSaveTopk K true cs).topk_model id v)
        p.1).map Prod.fst
      rw [hins]
      exact dictRemove_not_mem_keys hndB p.1
    · show id ∈ (dictRemove (dictInsert (runSaveTopk K true cs).topk_model id v)
        p.1).map Prod.fst
      rw [hins]
      apply dictRemove_mem_keys_of_ne hidne
      rw [hkeysB]
      exact List.mem_append.mpr (Or.inr (List.mem_singleton.mpr rfl))
    · show vals (dictRemove (dictInsert (runSaveTopk K true cs).topk_model id v)
        p.1) = v ::ₘ (vals (runSaveTopk K true cs).topk_model).erase p.2
      rw [hins, vals_dictRemove hndB hpB, vals_append_single,
        erase_cons_of_mem hm]
  · intro hv
    have hnc : ¬ ((true = true ∧ p.2 < v) ∨ (true = false ∧ v < p.2)) := by
      rintro (⟨_, hlt2⟩ | ⟨hff, _⟩)
      · exact absurd hlt2 (not_lt.mpr hv)
      · exact absurd hff (by decide)
    rw [saveTopkConsider_full hlt hpL, if_neg hnc]

/-- Witness for C1 (amended) at K = 2 and the Scenario B values. -/
theorem C1_topk_retention_amended_witness :
    1 ≤ 2 ∧ (([((0 : ℕ), (5 : ℚ)), (1, 5), (2, 7)]).map Prod.fst).Nodup ∧
    IsTopKSelection 2 (vals [((0 : ℕ), (5 : ℚ)), (1, 5), (2, 7)])
      (vals (runSaveTopk 2 true [((0 : ℕ), (5 : ℚ)), (1, 5), (2, 7)]).topk_model) :=
  ⟨by decide, by decide,
    (C1_topk_retention_amended 2 (by decide) [((0 : ℕ), (5 : ℚ)), (1, 5), (2, 7)]
      (by decide)).1⟩

/-- Claim C3: with save_topk = K >= 1 and either comparison direction, after
every run over distinct candidate ids the retained dict never exceeds K
entries, _topn equals the number of admissions capped at K, and once the dict
is full a further consideration either rejects (leaving the state unchanged)
or admits with exactly one eviction. -/
theorem C3_topk_invariants (K : ℕ) (lb : Bool) (hK : 1 ≤ K)
    (cs : List (ℕ × ℚ)) (hnd : (cs.map Prod.fst).Nodup) :
    (runSaveTopk K lb cs).topk_model.length ≤ K ∧
    (runSaveTopk K lb cs).topn = min (countAdmitted (runDecisions K lb cs)) K ∧
    (∀ id v, id ∉ cs.map Prod.fst →
      (runSaveTopk K lb cs).topk_model.length = K →
      (saveTopkConsider K lb (runSaveTopk K lb cs) id v =
          (runSaveTopk K lb cs, Decision.rejected) ∨
        ∃ ek, ek ∈ (runSaveTopk K lb cs).topk_model.map Prod.fst ∧
          (saveTopkConsider K lb (runSaveTopk K lb cs) id v).2 =
            Decision.evicted ek ∧
          (saveTopkConsider K lb (runSaveTopk K lb cs) id
            v).1.topk_model.length = K ∧
          ek ∉ (saveTopkConsider K lb (runSaveTopk K lb cs) id
            v).1.topk_model.map Prod.fst ∧
          id ∈ (saveTopkConsider K lb (runSaveTopk K lb cs) id
            v).1.topk_model.map Prod.fst)) := by
  have hstruct := @runTrace_struct ℕ _ K lb cs (initTopk ℕ) 0 (by simp [initTopk])
    (by simp [initTopk]) (by simp [initTopk]) hnd (by simp [initTopk])
  have hS1 : ((runSaveTopk K lb cs).topk_model.map Prod.fst).Nodup := hstruct.1
  have hS2 : (runSaveTopk K lb cs).topk_model.length =
      (runSaveTopk K lb cs).topn := hstruct.2.1
  have hS3 : (runSaveTopk K lb cs).topn =
      min (0 + countAdmitted (runDecisions K lb cs)) K := hstruct.2.2.1
  have hS4 : ∀ k ∈ (runSaveTopk K lb cs).topk_model.map Prod.fst,
      k ∈ (initTopk ℕ).topk_model.map Prod.fst ∨ k ∈ cs.map Prod.fst :=
    hstruct.2.2.2
  refine ⟨by omega, by omega, ?_⟩
  intro id v hid hlen
  have hfull : (runSaveTopk K lb cs).topn = K := by omega
  have hid' : id ∉ (runSaveTopk K lb cs).topk_model.map Prod.fst := by
    intro h
    rcases hS4 id h with h1 | h1
    · cases h1
    · exact hid h1
  exact saveTopk_full_step hK lb hS1 hS2 hfull hid' v

/-- Witness for C3 at K = 1, larger_better = False, values 3 then 2. -/
theorem C3_topk_invariants_witness :
    1 ≤ 1 ∧ (([((0 : ℕ), (3 : ℚ)), (1, 2)]).map Prod.fst).Nodup ∧
    (runSaveTopk 1 false [((0 : ℕ), (3 : ℚ)), (1, 2)]).topk_model.length ≤ 1 ∧
    (runSaveTopk 1 false [((0 : ℕ), (3 : ℚ)), (1, 2)]).topn =
      min (countAdmitted (runDecisions 1 false [((0 : ℕ), (3 : ℚ)), (1, 2)])) 1 :=
  ⟨by decide, by decide,
    (C3_topk_invariants 1 false (by decide) [((0 : ℕ), (3 : ℚ)), (1, 2)]
      (by decide)).1,
    (C3_topk_invariants 1 false (by decide) [((0 : ℕ), (3 : ℚ)), (1, 2)]
      (by decide)).2.1⟩

/-- A metric value as stored in _topk_model: either a plain Python float or a
wrapper exposing a callable item() accessor, i.e. matching the
CanItemDataType protocol of checkpoint_callback.py. -/
inductive MetricVal where
  | plain (q : ℚ)
  | wrapped (q : ℚ)
deriving DecidableEq, Repr

/-- apply_to_collection(self._topk_model, dtype=CanItemDataType,
function=lambda x: x.item()) from on_save_checkpoint: values matching the
protocol are replaced by the plain number x.item(); plain floats do not match
the protocol and are left untouched. -/
def applyItemToTopk (m : List (String × MetricVal)) : List (String × MetricVal) :=
  m.map (fun p => (p.1,
    match p.2 with
    | MetricVal.wrapped q => MetricVal.plain q
    | MetricVal.plain q => MetricVal.plain q))

/-- Python exception classes appearing in the on_exception scenarios.
Classes compare by identity; keyErrorSub models a strict subclass of
KeyError. -/
inductive PyClass where
  | keyError
  | typeErrorCls
  | valueErrorCls
  | keyErrorSub
deriving DecidableEq, Repr

/-- Python issubclass restricted to the modelled classes: reflexive, and
keyErrorSub derives from KeyError. -/
def isSubclassOf (c d : PyClass) : Bool :=
  decide (c = d) ||
    (decide (c = PyClass.keyErrorSub) && decide (d = PyClass.keyError))

/-- The __name__ of a modelled exception class. -/
def PyClass.clsName : PyClass → String
  | PyClass.keyError => "KeyError"
  | PyClass.typeErrorCls => "TypeError"
  | PyClass.valueErrorCls => "ValueError"
  | PyClass.keyErrorSub => "KeyErrorSub"

/-- Folder names produced by the four save triggers.  Each constructor
renders (FolderName.render) to the f-string built at the corresponding call
site of checkpoint_callback.py; the constructors carry exactly the data the
f-strings interpolate, so equality of folder names is equality of the
encoded trigger data. -/
inductive FolderName where
  | epochF (pre : String) (epoch : ℕ)
  | lastF (pre : String)
  | batchF (pre : String) (epoch batch : ℕ)
  | exceptionF (pre : String) (epoch batch : ℕ) (cls : PyClass)
deriving DecidableEq, Repr

/-- The folder name string of each trigger, as formatted in the source. -/
def FolderName.render : FolderName → String
  | FolderName.epochF pre e => pre ++ "-epoch_" ++ toString e
  | FolderName.lastF pre => pre ++ "-last"
  | FolderName.batchF pre e b =>
      pre ++ "-epoch_" ++ toString e ++ "-batch_" ++ toString b
  | FolderName.exceptionF pre e b cls =>
      pre ++ "-epoch_" ++ toString e ++ "-batch_" ++ toString b ++
        "-exception_" ++ cls.clsName

/-- sys.maxsize on a 64-bit platform, substituted in __init__ for an
unconfigured save_every_n_epochs or save_every_n_batches so that no counter
divides it evenly. -/
def sysMaxsize : ℕ := 2 ^ 63 - 1

/-- Validation of one interval parameter in CheckpointCallback.__init__
(lines 66-78): a configured value below 1 is rejected with ValueError, an
unconfigured value becomes the sys.maxsize sentinel. -/
def initInterval (v : Option ℤ) (msg : String) : Except String ℕ :=
  match v with
  | some n => if n < 1 then Except.error msg else Except.ok n.toNat
  | none => Except.ok sysMaxsize

/-- Validation of both interval parameters, in source order. -/
def initIntervals (save_every_n_epochs save_every_n_batches : Option ℤ) :
    Except String (ℕ × ℕ) :=
  match initInterval save_every_n_epochs
      "parameter save_after_epoch_num should be an int and greater than or equal to 1." with
  | Except.error e => Except.error e
  | Except.ok ne =>
    match initInterval save_every_n_batches
        "parameter save_every_n_batches should be an int and greater than or equal to 1." with
    | Except.error e => Except.error e
    | Except.ok nb => Except.ok (ne, nb)

/-- The mutable fields of CheckpointCallback set in __init__ and touched by
the lifecycle methods.  folder_pre stands for the folder_prefix property of
the concrete strategy subclass ("model" or "trainer"); real_monitor is
initialised to monitor and re-pinned by monitor resolution. -/
structure CheckpointCallback where
  monitor : Option String
  save_every_n_epochs : ℕ
  save_every_n_batches : ℕ
  save_last : Bool
  save_topk : Option ℕ
  larger_better : Bool
  save_on_exception : List PyClass
  timestamp_path : String
  topk_model : List (String × MetricVal)
  topn : ℕ
  real_monitor : Option String
  folder_pre : String
deriving DecidableEq, Repr

/-- Values stored in the states dict exchanged by on_save_checkpoint and
on_load_checkpoint. -/
inductive StateVal where
  | str (s : String)
  | noneVal
  | topkMap (m : List (String × MetricVal))
  | num (n : ℕ)
deriving DecidableEq, Repr

/-- Python dict lookup d[k] on a states dict, None when the key is absent. -/
def dictFind {β : Type} : List (String × β) → String → Option β
  | [], _ => none
  | p :: l, k => if p.1 = k then some p.2 else dictFind l k

/-- Python dict d.update(e): inserts every entry of e into d in order. -/
def dictUpdateAll (d e : List (String × MetricVal)) :
    List (String × MetricVal) :=
  e.foldl (fun acc p => dictInsert acc p.1 p.2) d

/-- The value stored under _real_monitor: the pinned monitor string, or
Python None when the callback was built without a monitor. -/
def realMonitorVal : Option String → StateVal
  | some s => StateVal.str s
  | none => StateVal.noneVal

/-- CheckpointCallback.on_save_checkpoint (lines 148-161): a flat states
dict holding the absolute run directory, the _topk_model with
item-convertible values unwrapped, the configured width (0 when unset) and
the _real_monitor pin. -/
def on_save_checkpoint (cb : CheckpointCallback) : List (String × StateVal) :=
  [("timestamp_path", StateVal.str cb.timestamp_path),
   ("_topk_model", StateVal.topkMap (applyItemToTopk cb.topk_model)),
   ("save_topk", StateVal.num (cb.save_topk.getD 0)),
   ("_real_monitor", realMonitorVal cb.real_monitor)]

/-- Python errors raised by on_load_checkpoint. -/
inductive PyError where
  | keyError (k : String)
  | assertionError
  | typeError
deriving DecidableEq, Repr

/-- The else branch of on_load_checkpoint (recorded run directory still on
disk), lines 168-176: adopt the recorded directory, read
states of _topk_model (the local variable is never used afterwards, exactly
as in the source), read and int-convert states of save_topk, assert equal
widths when both the restored and the configured width are set, then run
self._topk_model.update(self._topk_model) - the dict is updated with itself,
as written in the source. -/
def loadExistingBranch (cb : CheckpointCallback) (tp : String)
    (states : List (String × StateVal)) : Except PyError CheckpointCallback :=
  match dictFind states "_topk_model" with
  | none => Except.error (PyError.keyError "_topk_model")
  | some (StateVal.topkMap _tm) =>
    match dictFind states "save_topk" with
    | none => Except.error (PyError.keyError "save_topk")
    | some (StateVal.num st) =>
      let save_topk : Option ℕ := if st = 0 then none else some st
      let cb1 := { cb with timestamp_path := tp }
      match save_topk, cb1.save_topk with
      | some k, some k2 =>
        if k2 = k then
          Except.ok { cb1 with
            topk_model := dictUpdateAll cb1.topk_model cb1.topk_model }
        else Except.error PyError.assertionError
      | _, _ =>
        Except.ok { cb1 with
          topk_model := dictUpdateAll cb1.topk_model cb1.topk_model }
    | some _ => Except.error PyError.typeError
  | some _ => Except.error PyError.typeError

/-- The final line of on_load_checkpoint:
self._real_monitor = states of key "real_monitor" - note the key does not
carry the leading underscore used by on_save_checkpoint. -/
def setRealMonitor (cb : CheckpointCallback)
    (states : List (String × StateVal)) : Except PyError CheckpointCallback :=
  match dictFind states "real_monitor" with
  | none => Except.error (PyError.keyError "real_monitor")
  | some (StateVal.str s) => Except.ok { cb with real_monitor := some s }
  | some StateVal.noneVal => Except.ok { cb with real_monitor := none }
  | some _ => Except.error PyError.typeError

/-- CheckpointCallback.on_load_checkpoint (lines 163-177), over a filesystem
modelled as the list of existing paths.  When the recorded run directory is
gone the manager only logs and keeps its fresh directory; otherwise it runs
the else branch; in both cases it finally assigns _real_monitor from the
states dict. -/
def on_load_checkpoint (fs : List String) (cb : CheckpointCallback)
    (states : List (String × StateVal)) : Except PyError CheckpointCallback :=
  match dictFind states "timestamp_path" with
  | none => Except.error (PyError.keyError "timestamp_path")
  | some (StateVal.str tp) =>
    if tp ∈ fs then
      match loadExistingBranch cb tp states with
      | Except.error e => Except.error e
      | Except.ok cb1 => setRealMonitor cb1 states
    else
      setRealMonitor cb states
  | some _ => Except.error PyError.typeError

/-- CheckpointCallback.on_train_epoch_end (lines 125-131): the epoch save
fires when save_every_n_epochs divides the epoch counter, and independently
the last save fires when save_last is set; the result lists the folder names
saved, in call order. -/
def on_train_epoch_end (cb : CheckpointCallback) (cur_epoch_idx : ℕ) :
    List FolderName :=
  (if cur_epoch_idx % cb.save_every_n_epochs = 0 then
    [FolderName.epochF cb.folder_pre cur_epoch_idx]
  else []) ++
  (if cb.save_last then [FolderName.lastF cb.folder_pre] else [])

/-- CheckpointCallback.on_train_batch_end (lines 133-136). -/
def on_train_batch_end (cb : CheckpointCallback)
    (cur_epoch_idx global_forward_batches : ℕ) : List FolderName :=
  if global_forward_batches % cb.save_every_n_batches = 0 then
    [FolderName.batchF cb.folder_pre cur_epoch_idx global_forward_batches]
  else []

/-- CheckpointCallback.on_exception (lines 138-142): saves exactly when the
concrete class of the raised exception is a member of save_on_exception
(Python list membership compares classes by equality, which for classes is
identity - not issubclass). -/
def on_exception (cb : CheckpointCallback)
    (cur_epoch_idx global_forward_batches : ℕ) (excCls : PyClass) :
    List FolderName :=
  if excCls ∈ cb.save_on_exception then
    [FolderName.exceptionF cb.folder_pre cur_epoch_idx global_forward_batches
      excCls]
  else []

/-- A concrete ModelCheckpointCallback configuration used by the scenario
theorems: monitor "acc", every 2 epochs, save_last on, top-2 retention,
exception allow-list containing exactly KeyError. -/
def sampleCb : CheckpointCallback :=
  ⟨some "acc", 2, sysMaxsize, true, some 2, true, [PyClass.keyError],
    "/save/2022-01-01", [], 0, some "acc", "model"⟩

/-- A configuration with an unset save_topk and a wrapped metric value in the
retention dict, exercising the snapshot unwrapping and the 0-when-unset
width. -/
def sampleCbWrapped : CheckpointCallback :=
  ⟨some "acc", 2, sysMaxsize, true, none, true, [PyClass.keyError],
    "/save/2022-01-01", [("m1", MetricVal.wrapped 1)], 1, some "acc", "model"⟩

/-- A configuration with both intervals left at the sys.maxsize sentinel. -/
def sampleCbDormant : CheckpointCallback :=
  ⟨some "acc", sysMaxsize, sysMaxsize, false, none, true, [],
    "/save/2022-01-01", [], 0, some "acc", "model"⟩

theorem dictFind_save_tp (cb : CheckpointCallback) :
    dictFind (on_save_checkpoint cb) "timestamp_path" =
      some (StateVal.str cb.timestamp_path) := rfl

theorem dictFind_save_topkmap (cb : CheckpointCallback) :
    dictFind (on_save_checkpoint cb) "_topk_model" =
      some (StateVal.topkMap (applyItemToTopk cb.topk_model)) := rfl

theorem dictFind_save_width (cb : CheckpointCallback) :
    dictFind (on_save_checkpoint cb) "save_topk" =
      some (StateVal.num (cb.save_topk.getD 0)) := rfl

theorem dictFind_save_rm (cb : CheckpointCallback) :
    dictFind (on_save_checkpoint cb) "real_monitor" = none := rfl

/-- Claim C2 (code bug): snapshotting any manager and restoring on a fresh
manager configured with the same width, with the snapshotted run directory
still on disk, raises KeyError("real_monitor"): on_save_checkpoint stores the
monitor pin under the key "_topk_model"-style name "_real_monitor" while
on_load_checkpoint reads the key "real_monitor"; moreover the retention merge
is self._topk_model.update(self._topk_model), a no-op on the fresh dict, so
even with matching keys the retained set would not be reproduced. -/
theorem C2_roundtrip_raises (cb cb2 : CheckpointCallback) (fs : List String)
    (hfs : cb.timestamp_path ∈ fs) (hk : cb2.save_topk = cb.save_topk)
    (hnz : cb.save_topk ≠ some 0) :
    on_load_checkpoint fs cb2 (on_save_checkpoint cb) =
      Except.error (PyError.keyError "real_monitor") := by
  have hbranch : ∃ cb1, loadExistingBranch cb2 cb.timestamp_path
      (on_save_checkpoint cb) = Except.ok cb1 := by
    simp only [loadExistingBranch, dictFind_save_topkmap, dictFind_save_width]
    rcases hsk : cb.save_topk with _ | k
    · rw [hsk] at hk
      simp [hk]
    · have hknz : ¬ k = 0 := fun h => hnz (by rw [hsk, h])
      rw [hsk] at hk
      simp [hk, hknz]
  obtain ⟨cb1, hbr⟩ := hbranch
  simp only [on_load_checkpoint, dictFind_save_tp]
  rw [if_pos hfs, hbr]
  simp only [setRealMonitor, dictFind_save_rm]

/-- Witness for C2 at the sample configuration. -/
theorem C2_roundtrip_raises_witness :
    sampleCb.timestamp_path ∈ ["/save/2022-01-01"] ∧
    sampleCb.save_topk ≠ some 0 ∧
    on_load_checkpoint ["/save/2022-01-01"] sampleCb
        (on_save_checkpoint sampleCb) =
      Except.error (PyError.keyError "real_monitor") :=
  ⟨by decide, by decide,
    C2_roundtrip_raises sampleCb sampleCb ["/save/2022-01-01"] (by decide) rfl
      (by decide)⟩

/-- Claim C4: an exception save fires exactly when the concrete class of the
raised exception is a member of the allow-list; with allow-list [KeyError], a
KeyError fires, a TypeError does not, and an instance of a strict KeyError
subclass does not either, although issubclass holds for it. -/
theorem C4_exception_exact_type (cb : CheckpointCallback) (e b : ℕ)
    (cls : PyClass) :
    (FolderName.exceptionF cb.folder_pre e b cls ∈ on_exception cb e b cls ↔
      cls ∈ cb.save_on_exception) ∧
    on_exception sampleCb 1 5 PyClass.keyError =
      [FolderName.exceptionF "model" 1 5 PyClass.keyError] ∧
    on_exception sampleCb 1 5 PyClass.typeErrorCls = [] ∧
    on_exception sampleCb 1 5 PyClass.keyErrorSub = [] ∧
    isSubclassOf PyClass.keyErrorSub PyClass.keyError = true := by
  refine ⟨?_, by decide, by decide, by decide, by decide⟩
  unfold on_exception
  by_cases h : cls ∈ cb.save_on_exception <;> simp [h]

/-- Claim C5: at the end of an epoch, the epoch save fires exactly when
save_every_n_epochs divides the epoch counter, the last save fires exactly
when save_last is set, both can fire in the same call, and with
every_n_epochs = 2 over end-of-epoch counters 1..5 (as in spec Scenario A)
the epoch saves fire at epochs 2 and 4 only. -/
theorem C5_epoch_end_saves (cb : CheckpointCallback) (e : ℕ) :
    (FolderName.epochF cb.folder_pre e ∈ on_train_epoch_end cb e ↔
      e % cb.save_every_n_epochs = 0) ∧
    (FolderName.lastF cb.folder_pre ∈ on_train_epoch_end cb e ↔
      cb.save_last = true) ∧
    on_train_epoch_end sampleCb 2 =
      [FolderName.epochF "model" 2, FolderName.lastF "model"] ∧
    ([1, 2, 3, 4, 5].filter
      (fun k => decide (FolderName.epochF "model" k ∈ on_train_epoch_end
        sampleCb k))) = [2, 4] := by
  refine ⟨?_, ?_, by decide, by decide⟩
  · unfold on_train_epoch_end
    by_cases h : e % cb.save_every_n_epochs = 0 <;>
      by_cases h2 : cb.save_last <;> simp [h, h2]
  · unfold on_train_epoch_end
    by_cases h : e % cb.save_every_n_epochs = 0 <;>
      by_cases h2 : cb.save_last <;> simp [h, h2]

/-- Claim C6: with both intervals unconfigured, __init__ substitutes the
sys.maxsize sentinel without raising, and since no reachable counter (the
counters are positive and far below sys.maxsize) is divisible by the
sentinel, neither the periodic epoch save nor the batch save ever fires. -/
theorem C6_sentinel_dormant (cb : CheckpointCallback)
    (he : cb.save_every_n_epochs = sysMaxsize)
    (hb : cb.save_every_n_batches = sysMaxsize)
    (e b : ℕ) (he1 : 1 ≤ e) (he2 : e < sysMaxsize) (hb1 : 1 ≤ b)
    (hb2 : b < sysMaxsize) :
    initIntervals none none = Except.ok (sysMaxsize, sysMaxsize) ∧
    FolderName.epochF cb.folder_pre e ∉ on_train_epoch_end cb e ∧
    on_train_batch_end cb e b = [] := by
  have hemod : e % sysMaxsize = e := Nat.mod_eq_of_lt he2
  have hbmod : b % sysMaxsize = b := Nat.mod_eq_of_lt hb2
  have hez : ¬ e = 0 := by omega
  have hbz : ¬ b = 0 := by omega
  refine ⟨rfl, ?_, ?_⟩
  · unfold on_train_epoch_end
    rw [he, hemod]
    by_cases h2 : cb.save_last <;> simp [hez, h2]
  · unfold on_train_batch_end
    rw [hb, hbmod]
    simp [hbz]

/-- Witness for C6 at the dormant sample configuration, epoch 3, batch 7. -/
theorem C6_sentinel_dormant_witness :
    (sampleCbDormant.save_every_n_epochs = sysMaxsize ∧
     sampleCbDormant.save_every_n_batches = sysMaxsize ∧
     1 ≤ 3 ∧ 3 < sysMaxsize ∧ 1 ≤ 7 ∧ 7 < sysMaxsize) ∧
    (initIntervals none none = Except.ok (sysMaxsize, sysMaxsize) ∧
     FolderName.epochF sampleCbDormant.folder_pre 3 ∉
       on_train_epoch_end sampleCbDormant 3 ∧
     on_train_batch_end sampleCbDormant 3 7 = []) :=
  ⟨⟨rfl, rfl, by decide, by decide, by decide, by decide⟩,
    C6_sentinel_dormant sampleCbDormant rfl rfl 3 7 (by decide) (by decide)
      (by decide) (by decide)⟩

/-- States dict for the C7 counterexample: recorded width 5, recorded run
directory absent from the filesystem. -/
def c7States : List (String × StateVal) :=
  [("timestamp_path", StateVal.str "/gone/run"),
   ("_topk_model", StateVal.topkMap []),
   ("save_topk", StateVal.num 5),
   ("real_monitor", StateVal.str "acc")]

/-- Claim C7, counterexample: the restored state records width 5, the new
manager is configured with width 2, but because the recorded run directory no
longer exists the width check is skipped entirely and the restore returns
normally instead of failing fast. -/
theorem C7_counterexample :
    dictFind c7States "save_topk" = some (StateVal.num 5) ∧
    sampleCb.save_topk = some 2 ∧
    on_load_checkpoint [] sampleCb c7States =
      Except.ok { sampleCb with real_monitor := some "acc" } :=
  ⟨rfl, rfl, rfl⟩

/-- Claim C7 (amended): when the recorded run directory still exists and both
the restored and the newly configured top-K widths are set and disagree, the
restore fails fast with AssertionError before touching the retention state;
when the recorded directory is gone, the check is skipped. -/
theorem C7_width_mismatch_amended (fs : List String) (cb : CheckpointCallback)
    (states : List (String × StateVal)) (tp : String)
    (tm : List (String × MetricVal)) (st k : ℕ)
    (h1 : dictFind states "timestamp_path" = some (StateVal.str tp))
    (h2 : tp ∈ fs)
    (h3 : dictFind states "_topk_model" = some (StateVal.topkMap tm))
    (h4 : dictFind states "save_topk" = some (StateVal.num st))
    (h5 : st ≠ 0) (h6 : cb.save_topk = some k) (h7 : k ≠ st) :
    on_load_checkpoint fs cb states = Except.error PyError.assertionError := by
  have hbr : loadExistingBranch cb tp states =
      Except.error PyError.assertionError := by
    simp only [loadExistingBranch, h3, h4]
    simp [h5, h6, h7]
  simp only [on_load_checkpoint, h1]
  rw [if_pos h2, hbr]

/-- States dict for the C7 witness: recorded width 5, recorded run directory
present. -/
def c7bStates : List (String × StateVal) :=
  [("timestamp_path", StateVal.str "/run/ts"),
   ("_topk_model", StateVal.topkMap []),
   ("save_topk", StateVal.num 5),
   ("real_monitor", StateVal.str "acc")]

/-- Witness for C7 (amended): width 5 recorded, width 2 configured, directory
present, restore raises AssertionError. -/
theorem C7_width_mismatch_amended_witness :
    dictFind c7bStates "timestamp_path" = some (StateVal.str "/run/ts") ∧
    "/run/ts" ∈ ["/run/ts"] ∧
    sampleCb.save_topk = some 2 ∧ (5 : ℕ) ≠ 0 ∧ (2 : ℕ) ≠ 5 ∧
    on_load_checkpoint ["/run/ts"] sampleCb c7bStates =
      Except.error PyError.assertionError :=
  ⟨rfl, by decide, rfl, by decide, by decide,
    C7_width_mismatch_amended ["/run/ts"] sampleCb c7bStates "/run/ts" [] 5 2
      rfl (by decide) rfl rfl (by decide) rfl (by decide)⟩

/-- States dict for the C8 scenario: one retained entry, recorded run
directory present, and the monitor pin stored under the key that
on_load_checkpoint actually reads. -/
def c8States : List (String × StateVal) :=
  [("timestamp_path", StateVal.str "/run/ts"),
   ("_topk_model", StateVal.topkMap [("model-epoch_1-batch_4-acc_0.3",
      MetricVal.plain (3 / 10))]),
   ("save_topk", StateVal.num 2),
   ("real_monitor", StateVal.str "acc")]

/-- The manager state expected after the C8 restore: directory adopted and
monitor re-pinned, but the retention dict left empty. -/
def c8After : CheckpointCallback :=
  { sampleCb with timestamp_path := "/run/ts", real_monitor := some "acc" }

/-- Claim C8 (code bug), at concrete inputs: when the recorded directory
exists the manager does adopt it and re-pins the monitor, but the restored
retention entry is dropped - the source updates _topk_model with itself
instead of with the restored mapping, so the retention set stays empty; and
when the recorded directory is gone, restoring an actual snapshot raises
KeyError("real_monitor") instead of returning normally, because
on_save_checkpoint writes the pin under "_real_monitor". -/
theorem C8_restore_drops_entries :
    dictFind c8States "_topk_model" =
      some (StateVal.topkMap [("model-epoch_1-batch_4-acc_0.3",
        MetricVal.plain (3 / 10))]) ∧
    on_load_checkpoint ["/run/ts"] sampleCb c8States = Except.ok c8After ∧
    c8After.topk_model = [] ∧
    on_load_checkpoint [] sampleCb (on_save_checkpoint sampleCb) =
      Except.error (PyError.keyError "real_monitor") :=
  ⟨rfl, rfl, rfl, rfl⟩

/-- Claim C9, counterexample: the snapshot keys are "timestamp_path",
"_topk_model", "save_topk" and "_real_monitor"; the keys "topk_state" and
"real_monitor" named by the claim are absent. -/
theorem C9_counterexample :
    (on_save_checkpoint sampleCb).map Prod.fst =
      ["timestamp_path", "_topk_model", "save_topk", "_real_monitor"] ∧
    dictFind (on_save_checkpoint sampleCb) "topk_state" = none ∧
    dictFind (on_save_checkpoint sampleCb) "real_monitor" = none :=
  ⟨rfl, rfl, rfl⟩

/-- Claim C9 (amended): the snapshot is a flat mapping whose keys are exactly
"timestamp_path" (string), "_topk_model" (mapping from folder name to metric
value with item-convertible values unwrapped to plain numbers), "save_topk"
(number, 0 when unset) and "_real_monitor" (the pinned monitor). -/
theorem C9_snapshot_shape_amended (cb : CheckpointCallback) :
    (on_save_checkpoint cb).map Prod.fst =
      ["timestamp_path", "_topk_model", "save_topk", "_real_monitor"] ∧
    dictFind (on_save_checkpoint cb) "timestamp_path" =
      some (StateVal.str cb.timestamp_path) ∧
    dictFind (on_save_checkpoint cb) "_topk_model" =
      some (StateVal.topkMap (applyItemToTopk cb.topk_model)) ∧
    (∀ p ∈ applyItemToTopk cb.topk_model, ∃ q : ℚ, p.2 = MetricVal.plain q) ∧
    dictFind (on_save_checkpoint cb) "save_topk" =
      some (StateVal.num (cb.save_topk.getD 0)) ∧
    dictFind (on_save_checkpoint cb) "_real_monitor" =
      some (realMonitorVal cb.real_monitor) ∧
    dictFind (on_save_checkpoint sampleCbWrapped) "save_topk" =
      some (StateVal.num 0) ∧
    dictFind (on_save_checkpoint sampleCbWrapped) "_topk_model" =
      some (StateVal.topkMap [("m1", MetricVal.plain 1)]) := by
  refine ⟨rfl, rfl, rfl, ?_, rfl, rfl, rfl, rfl⟩
  intro p hp
  unfold applyItemToTopk at hp
  obtain ⟨q, hq, hqe⟩ := List.mem_map.mp hp
  rcases q with ⟨k, v⟩
  cases v with
  | plain r => exact ⟨r, by rw [← hqe]⟩
  | wrapped r => exact ⟨r, by rw [← hqe]⟩

/-- Witness for C9 (amended) at the wrapped-value configuration. -/
theorem C9_snapshot_shape_amended_witness :
    ("m1", MetricVal.plain 1) ∈ applyItemToTopk sampleCbWrapped.topk_model ∧
    (∃ q : ℚ, (("m1", MetricVal.plain 1) : String × MetricVal).2 =
      MetricVal.plain q) ∧
    (on_save_checkpoint sampleCbWrapped).map Prod.fst =
      ["timestamp_path", "_topk_model", "save_topk", "_real_monitor"] :=
  ⟨by decide, (C9_snapshot_shape_amended sampleCbWrapped).2.2.2.1 _ (by decide),
    (C9_snapshot_shape_amended sampleCbWrapped).1⟩

/-- Modelled from the spec: the fastNLP Collator (fastNLP.core.collators) is
an external collaborator whose code is not under src; per the spec it is the
multi-backend collation object whose set_pad and set_ignore update its
per-field configuration and return the collator itself.  The model records
the calls; the remaining set_pad arguments (pad_val, dtype, backend, pad_fn)
are forwarded to the collator and opaque to the dataloader logic. -/
structure Collator where
  padCalls : List String
  ignoreCalls : List (List String)
deriving DecidableEq, Repr

/-- Modelled from the spec: Collator.set_pad records the field configuration
and returns the collator itself. -/
def Collator.setPadRecord (c : Collator) (field_name : String) : Collator :=
  ⟨c.padCalls ++ [field_name], c.ignoreCalls⟩

/-- Modelled from the spec: Collator.set_ignore records the ignored fields
and returns the collator itself. -/
def Collator.setIgnoreRecord (c : Collator) (fields : List String) : Collator :=
  ⟨c.padCalls, c.ignoreCalls ++ [fields]⟩

/-- The collate_fn attribute of a JittorDataLoader after __init__ (fdl.py
lines 70-82): a fastNLP Collator (the "auto" path over a fastNLP DataSet, or
a Collator passed directly), a callable wrapper exposing an inner object via
its __wrapped__ attribute, some other plain callable, or the jittor default
collate_batch. -/
inductive CollateFn where
  | collator (c : Collator)
  | wrapper (inner : CollateFn)
  | plainCallable
  | collateBatch
deriving DecidableEq, Repr

/-- JittorDataLoader: only collate_fn matters to set_pad and set_ignore. -/
structure JittorDataLoader where
  collate_fn : CollateFn
deriving DecidableEq, Repr

/-- JittorDataLoader._get_collator (fdl.py lines 128-139): first the
__wrapped__ attribute when it is a Collator, then the collate_fn itself when
it is a Collator, else None. -/
def JittorDataLoader.getCollator : CollateFn → Option Collator
  | CollateFn.wrapper (CollateFn.collator c) => some c
  | CollateFn.collator c => some c
  | _ => none

/-- Mutating the underlying collator mutates the object shared with
collate_fn; rewrap reflects that aliasing in the functional model. -/
def rewrap : CollateFn → Collator → CollateFn
  | CollateFn.wrapper (CollateFn.collator _), c =>
      CollateFn.wrapper (CollateFn.collator c)
  | CollateFn.collator _, c => CollateFn.collator c
  | f, _ => f

/-- JittorDataLoader.set_pad (fdl.py lines 101-126): delegates to the
underlying Collator and returns it, or raises ValueError leaving the
dataloader unchanged; the returned pair is the dataloader after the call and
the outcome. -/
def JittorDataLoader.set_pad (dl : JittorDataLoader) (field_name : String) :
    JittorDataLoader × Except String Collator :=
  match JittorDataLoader.getCollator dl.collate_fn with
  | some c =>
    (⟨rewrap dl.collate_fn (c.setPadRecord field_name)⟩,
      Except.ok (c.setPadRecord field_name))
  | none =>
    (dl, Except.error
      "Only when the collate_fn is a fastNLP Collator, set_pad() is allowed.")

/-- JittorDataLoader.set_ignore (fdl.py lines 141-158). -/
def JittorDataLoader.set_ignore (dl : JittorDataLoader)
    (fields : List String) : JittorDataLoader × Except String Collator :=
  match JittorDataLoader.getCollator dl.collate_fn with
  | some c =>
    (⟨rewrap dl.collate_fn (c.setIgnoreRecord fields)⟩,
      Except.ok (c.setIgnoreRecord fields))
  | none =>
    (dl, Except.error
      "Only when the collate_fn is a fastNLP Collator, set_ignore() is allowed.")

/-- Claim C10: set_pad and set_ignore succeed and return the underlying
fastNLP Collator exactly when collate_fn is a Collator or a wrapper exposing
one via its __wrapped__ attribute; for every other collate_fn both methods
raise ValueError and leave the dataloader unchanged (in particular for the
plain callable and the default batch collator). -/
theorem C10_set_pad_ignore (dl : JittorDataLoader) (fn : String)
    (fields : List String) :
    (∀ c, dl.collate_fn = CollateFn.collator c →
      dl.set_pad fn = (⟨CollateFn.collator (c.setPadRecord fn)⟩,
        Except.ok (c.setPadRecord fn)) ∧
      dl.set_ignore fields = (⟨CollateFn.collator (c.setIgnoreRecord fields)⟩,
        Except.ok (c.setIgnoreRecord fields))) ∧
    (∀ c, dl.collate_fn = CollateFn.wrapper (CollateFn.collator c) →
      dl.set_pad fn =
        (⟨CollateFn.wrapper (CollateFn.collator (c.setPadRecord fn))⟩,
          Except.ok (c.setPadRecord fn)) ∧
      dl.set_ignore fields =
        (⟨CollateFn.wrapper (CollateFn.collator (c.setIgnoreRecord fields))⟩,
          Except.ok (c.setIgnoreRecord fields))) ∧
    ((∀ c, dl.collate_fn ≠ CollateFn.collator c) →
      (∀ c, dl.collate_fn ≠ CollateFn.wrapper (CollateFn.collator c)) →
      (dl.set_pad fn).1 = dl ∧
      (∃ msg, (dl.set_pad fn).2 = Except.error msg) ∧
      (dl.set_ignore fields).1 = dl ∧
      (∃ msg, (dl.set_ignore fields).2 = Except.error msg)) := by
  obtain ⟨f⟩ := dl
  refine ⟨?_, ?_, ?_⟩
  · intro c hc
    simp only at hc
    subst hc
    exact ⟨rfl, rfl⟩
  · intro c hc
    simp only at hc
    subst hc
    exact ⟨rfl, rfl⟩
  · intro h1 h2
    have hnone : JittorDataLoader.getCollator f = none := by
      cases f with
      | collator c => exact absurd rfl (h1 c)
      | wrapper inner =>
        cases inner with
        | collator c => exact absurd rfl (h2 c)
        | wrapper i2 => rfl
        | plainCallable => rfl
        | collateBatch => rfl
      | plainCallable => rfl
      | collateBatch => rfl
    refine ⟨?_, ?_, ?_, ?_⟩
    · simp [JittorDataLoader.set_pad, hnone]
    · exact ⟨"Only when the collate_fn is a fastNLP Collator, set_pad() is allowed.",
        by simp [JittorDataLoader.set_pad, hnone]⟩
    · simp [JittorDataLoader.set_ignore, hnone]
    · exact ⟨"Only when the collate_fn is a fastNLP Collator, set_ignore() is allowed.",
        by simp [JittorDataLoader.set_ignore, hnone]⟩

/-- Witness for C10: a dataloader holding a bare Collator succeeds, a
dataloader holding a plain callable errors and is unchanged. -/
theorem C10_set_pad_ignore_witness :
    (⟨CollateFn.collator ⟨[], []⟩⟩ : JittorDataLoader).collate_fn =
      CollateFn.collator ⟨[], []⟩ ∧
    (⟨CollateFn.collator ⟨[], []⟩⟩ : JittorDataLoader).set_pad "words" =
      (⟨CollateFn.collator ⟨["words"], []⟩⟩, Except.ok ⟨["words"], []⟩) ∧
    ((⟨CollateFn.plainCallable⟩ : JittorDataLoader).set_pad "words").1 =
      (⟨CollateFn.plainCallable⟩ : JittorDataLoader) ∧
    (∃ msg, ((⟨CollateFn.plainCallable⟩ : JittorDataLoader).set_pad
      "words").2 = Except.error msg) := by
  have h1 := (C10_set_pad_ignore (⟨CollateFn.collator ⟨[], []⟩⟩ :
    JittorDataLoader) "words" []).1 ⟨[], []⟩ rfl
  have h3 := (C10_set_pad_ignore (⟨CollateFn.plainCallable⟩ :
    JittorDataLoader) "words" []).2.2
    (fun c h => by cases h) (fun c h => by cases h)
  exact ⟨rfl, h1.1, h3.1, h3.2.1⟩

end FastNLP
